import Mathlib

/-!
Shallow embedding of `src/server.py` of the MCP-CRUD repository: a sandboxed
set of filesystem CRUD operations scoped to a fixed workspace root directory.

The filesystem is modelled as a finite tree of directories and files; caller
arguments are strings resolved with POSIX `os.path.join` / normalisation
semantics (the view the OS takes of the path the server hands it).  Mutating
operations return the resulting filesystem state next to the structured
result, so that state-change (and absence of state-change on errors) is
expressible.
-/

namespace MCP

/-- Error taxonomy of the specification; `IOError` stands for the
unclassified OS-level failures that the server does not turn into one of the
named `ValueError` messages. -/
inductive Err where
  | NotFound
  | InvalidArgument
  | AlreadyExists
  | PermissionDenied
  | DecodeError
  | IOError
deriving DecidableEq

/-- Contents of a regular file: UTF-8 decodable text, or binary data on which
a text read raises `UnicodeDecodeError`. -/
inductive FileData where
  | text (content : String)
  | binary
deriving DecidableEq

/-- A filesystem node: a regular file or a directory.  Directory entries are
kept in filesystem (`os.listdir`) order. -/
inductive Entry where
  | file (data : FileData)
  | dir (entries : List (String × Entry))

/-- Split a character list on `'/'` (POSIX path component split). -/
def splitSlash : List Char → List (List Char)
  | [] => [[]]
  | c :: rest =>
    if c = '/' then [] :: splitSlash rest
    else
      match splitSlash rest with
      | [] => [[c]]
      | p :: ps => (c :: p) :: ps

/-- The raw `'/'`-separated components of a path string. -/
def pathComponents (s : String) : List String :=
  (splitSlash s.toList).map (fun cs => String.mk cs)

/-- One step of POSIX normalisation of an absolute path: empty and `"."`
components vanish, `".."` removes the last component (staying at the root
when there is none), anything else descends. -/
def normStep (acc : List String) (c : String) : List String :=
  if c = "" ∨ c = "." then acc
  else if c = ".." then acc.dropLast
  else acc ++ [c]

/-- Normalise the component list of an absolute path, as the OS (and
`os.path.abspath`) does. -/
def normalizeComponents (l : List String) : List String :=
  l.foldl normStep []

/-- The absolute location a path string denotes, as a normalised component
list below the real filesystem root. -/
def normComponents (s : String) : List String :=
  normalizeComponents (pathComponents s)

/-- Whether a path string is absolute. -/
def isAbsPath (s : String) : Bool :=
  match s.toList with
  | '/' :: _ => true
  | _ => false

/-- `os.path.join` on two POSIX path segments. -/
def joinPath (a b : String) : String :=
  if isAbsPath b then b
  else if a = "" ∨ a.toList.getLast? = some '/' then a ++ b
  else a ++ "/" ++ b

/-- `os.path.dirname` (POSIX semantics). -/
def dirname (s : String) : String :=
  let cs := s.toList
  let tailLen := (cs.reverse.takeWhile (fun c => !(c == '/'))).length
  let head := cs.take (cs.length - tailLen)
  if head = [] ∨ head.all (fun c => c == '/') then String.mk head
  else String.mk ((head.reverse.dropWhile (fun c => c == '/')).reverse)

/-- `WORKSPACE = os.path.abspath("workspace")`: the single absolute workspace
root, fixed at startup. -/
def WORKSPACE : String := "/app/workspace"

/-- The workspace root as a normalised component list. -/
def wsComponents : List String := normComponents WORKSPACE

/-- The absolute location (normalised components) that a caller-supplied
argument resolves to: `os.path.join(WORKSPACE, arg)` as seen by the OS. -/
def resolveC (arg : String) : List String :=
  normComponents (joinPath WORKSPACE arg)

/-- Look a name up in a directory's entry list. -/
def lookupE (name : String) : List (String × Entry) → Option Entry
  | [] => none
  | (n, e) :: rest => if n = name then some e else lookupE name rest

/-- Replace (or add) the entry of a given name in an entry list. -/
def setEntry (name : String) (v : Entry) : List (String × Entry) → List (String × Entry)
  | [] => [(name, v)]
  | (n, e) :: rest =>
    if n = name then (name, v) :: rest else (n, e) :: setEntry name v rest

/-- Remove the entry of a given name from an entry list. -/
def removeEntry (name : String) : List (String × Entry) → List (String × Entry)
  | [] => []
  | (n, e) :: rest =>
    if n = name then removeEntry name rest else (n, e) :: removeEntry name rest

/-- Follow a component path down the tree. -/
def getNode : Entry → List String → Option Entry
  | e, [] => some e
  | .file _, _ :: _ => none
  | .dir es, c :: cs =>
    match lookupE c es with
    | some child => getNode child cs
    | none => none

/-- Whether a node is a directory. -/
def isDirNode : Entry → Bool
  | .dir _ => true
  | .file _ => false

/-- `os.path.isdir`. -/
def isDirOpt : Option Entry → Bool
  | some (.dir _) => true
  | _ => false

/-- `os.path.isfile`. -/
def isFileOpt : Option Entry → Bool
  | some (.file _) => true
  | _ => false

/-- The kind of a looked-up node: absent, regular file, or directory. -/
def kindOf : Option Entry → Option Bool
  | none => none
  | some (.file _) => some false
  | some (.dir _) => some true

/-- `os.makedirs(path, exist_ok=True)`: create every missing directory along
the path; fails as soon as an existing component is a regular file.  Returns
a success flag next to the (possibly partially mutated) filesystem — created
intermediate directories persist even when a later component fails. -/
def makedirs : Entry → List String → Bool × Entry
  | .file d, _ => (false, .file d)
  | .dir es, [] => (true, .dir es)
  | .dir es, c :: cs =>
    match lookupE c es with
    | some child =>
      let r := makedirs child cs
      (r.1, .dir (setEntry c r.2 es))
    | none =>
      let r := makedirs (.dir []) cs
      (r.1, .dir (setEntry c r.2 es))

/-- `open(path, "w")` followed by writing `content`: creates or truncates the
file at the path; fails when the target is a directory or the parent chain is
missing.  Never mutates on failure. -/
def openWrite : Entry → List String → String → Option Entry
  | _, [], _ => none
  | .file _, _ :: _, _ => none
  | .dir es, [c], content =>
    match lookupE c es with
    | some (.dir _) => none
    | _ => some (.dir (setEntry c (.file (.text content)) es))
  | .dir es, c :: c2 :: cs, content =>
    match lookupE c es with
    | some child =>
      (openWrite child (c2 :: cs) content).map (fun ch => .dir (setEntry c ch es))
    | none => none

/-- `open(path, "a")` followed by writing `content`: appends to an existing
file (creating it when absent); fails when the target is a directory or the
parent chain is missing.  Appending to a binary file leaves its bytes
unmodelled. -/
def appendAt : Entry → List String → String → Option Entry
  | _, [], _ => none
  | .file _, _ :: _, _ => none
  | .dir es, [c], content =>
    match lookupE c es with
    | some (.dir _) => none
    | some (.file (.text s)) =>
      some (.dir (setEntry c (.file (.text (s ++ content))) es))
    | some (.file .binary) => some (.dir (setEntry c (.file .binary) es))
    | none => some (.dir (setEntry c (.file (.text content)) es))
  | .dir es, c :: c2 :: cs, content =>
    match lookupE c es with
    | some child =>
      (appendAt child (c2 :: cs) content).map (fun ch => .dir (setEntry c ch es))
    | none => none

/-- `os.remove` / `shutil.rmtree`: drop the entry at the path (the call sites
have already checked its kind).  Fails when the path is missing or is the
filesystem root itself. -/
def removeAt : Entry → List String → Option Entry
  | _, [] => none
  | .file _, _ :: _ => none
  | .dir es, [c] =>
    if (lookupE c es).isSome then some (.dir (removeEntry c es)) else none
  | .dir es, c :: c2 :: cs =>
    match lookupE c es with
    | some child =>
      (removeAt child (c2 :: cs)).map (fun ch => .dir (setEntry c ch es))
    | none => none

/-- Resolve a path the way the OS walks the literal string, component by
component, against the actual tree: empty and `"."` components are skipped,
`".."` steps to the parent of the current (existing) directory, and a normal
component must exist below the current position — a regular file is accepted
only as the final component.  Returns the resolved position on success; a
`".."` chain through a missing or regular-file component fails, exactly as
`os.path.exists` / `os.stat` do. -/
def walkPath (fs : Entry) : List String → List String → Option (List String)
  | cur, [] => some cur
  | cur, c :: cs =>
    if c = "" ∨ c = "." then walkPath fs cur cs
    else if c = ".." then walkPath fs cur.dropLast cs
    else
      match getNode fs (cur ++ [c]) with
      | some (.dir _) => walkPath fs (cur ++ [c]) cs
      | some (.file _) => match cs with | [] => some (cur ++ [c]) | _ :: _ => none
      | none => none

/-- `os.path.relpath(p, WORKSPACE)` for a walk-produced component path. -/
def relString (p : List String) : String := String.intercalate "/" p

/-- The basename (last component) of a walk-produced component path. -/
def lastName (p : List String) : String := p.getLastD ""

/-- Python `str.endswith`. -/
def endsWithStr (s sfx : String) : Bool := List.isSuffixOf sfx.toList s.toList

/-- Python `pattern.lstrip('*')`. -/
def stripStars (pattern : String) : String :=
  String.mk (pattern.toList.dropWhile (fun c => c == '*'))

/-- Python `str.lower` (ASCII case folding). -/
def lowerStr (s : String) : String := String.map Char.toLower s

/-- Python substring containment `pat in hay`. -/
def pyContains (hay pat : List Char) : Bool :=
  match hay with
  | [] => pat.isEmpty
  | h :: t => pat.isPrefixOf (h :: t) || pyContains t pat

/-- Python `hay.count(pat)`: non-overlapping left-to-right occurrence count
(`hay.count("") = hay.length + 1`). -/
def pycount (hay pat : List Char) : Nat :=
  match pat with
  | [] => hay.length + 1
  | p :: ps =>
    match hay with
    | [] => 0
    | h :: t =>
      if (p :: ps).isPrefixOf (h :: t) then 1 + pycount (List.drop ps.length t) (p :: ps)
      else pycount t (p :: ps)
termination_by hay.length
decreasing_by
  · simp [List.length_drop]; omega
  · simp

mutual

/-- The files delivered by `os.walk` started at a node, top-down: the files
of the current directory first (in listdir order), then those of each
subdirectory in turn.  Each file carries its component path below the walk
root. -/
def walkFiles : Entry → List String → List (List String × FileData)
  | .file _, _ => []
  | .dir es, pre =>
    es.filterMap (fun it =>
      match it.2 with
      | .file d => some (pre ++ [it.1], d)
      | .dir _ => none)
    ++ walkList es pre

/-- Walk each subdirectory of an entry list in order. -/
def walkList : List (String × Entry) → List String → List (List String × FileData)
  | [], _ => []
  | (n, e) :: rest, pre =>
    (match e with
     | .dir _ => walkFiles e (pre ++ [n])
     | .file _ => []) ++ walkList rest pre

end

/-- `os.walk(WORKSPACE)` restricted to the files it delivers: the walk starts
at the workspace root node and yields nothing when that node is absent. -/
def walkWorkspace (fs : Entry) : List (List String × FileData) :=
  match getNode fs wsComponents with
  | some e => walkFiles e []
  | none => []

/-- `list_files(directory="")`: entries of a workspace-relative directory,
directory names suffixed with `"/"`, directories first, each group sorted. -/
def list_files (fs : Entry) (directory : String) : (Except Err (List String)) × Entry :=
  match getNode fs (resolveC directory) with
  | none => (.error .NotFound, fs)
  | some (.file _) => (.error .InvalidArgument, fs)
  | some (.dir es) =>
    let dirs := (es.filter (fun it => isDirNode it.2)).map (fun it => it.1 ++ "/")
    let files := (es.filter (fun it => !isDirNode it.2)).map (fun it => it.1)
    (.ok (List.insertionSort (fun a b => a ≤ b) dirs
          ++ List.insertionSort (fun a b => a ≤ b) files), fs)

/-- `read_file(filename)`: the UTF-8 text content of a workspace file. -/
def read_file (fs : Entry) (filename : String) : Except Err String :=
  match getNode fs (resolveC filename) with
  | some (.file (.text content)) => .ok content
  | some (.file .binary) => .error .DecodeError
  | _ => .error .NotFound

/-- `write_file(filename, content)`: create parent directories, then create
or truncate the target and write `content`. -/
def write_file (fs : Entry) (filename content : String) : (Except Err String) × Entry :=
  let filepath := joinPath WORKSPACE filename
  let r := makedirs fs (normComponents (dirname filepath))
  if r.1 then
    match openWrite r.2 (normComponents filepath) content with
    | some fs2 => (.ok ("✅ Wrote to " ++ filename), fs2)
    | none => (.error .IOError, r.2)
  else (.error .IOError, r.2)

/-- `append_file(filename, content)`: require an existing regular file, then
append `content` to it. -/
def append_file (fs : Entry) (filename content : String) : (Except Err String) × Entry :=
  let p := resolveC filename
  if isFileOpt (getNode fs p) then
    match appendAt fs p content with
    | some fs2 => (.ok ("✅ Appended to " ++ filename), fs2)
    | none => (.error .IOError, fs)
  else (.error .NotFound, fs)

/-- `delete_file(filename)`: remove exactly one existing regular file. -/
def delete_file (fs : Entry) (filename : String) : (Except Err String) × Entry :=
  match getNode fs (resolveC filename) with
  | none => (.error .NotFound, fs)
  | some (.dir _) => (.error .InvalidArgument, fs)
  | some (.file _) =>
    match removeAt fs (resolveC filename) with
    | some fs2 => (.ok ("✅ Deleted " ++ filename), fs2)
    | none => (.error .IOError, fs)

/-- `create_directory(directory)`: fail when the target exists in any form,
otherwise create it together with missing intermediate directories. -/
def create_directory (fs : Entry) (directory : String) : (Except Err String) × Entry :=
  if (getNode fs (resolveC directory)).isSome then (.error .AlreadyExists, fs)
  else
    let r := makedirs fs (resolveC directory)
    if r.1 then (.ok ("✅ Created directory " ++ directory), r.2)
    else (.error .IOError, r.2)

/-- `delete_directory(directory)`: recursively remove an existing directory,
guarding the workspace root itself behind `PermissionDenied`.  The
`os.path.exists` / `os.path.isdir` checks walk the literal joined path
(`walkPath`), while the root guard compares the lexically normalised
`os.path.abspath` forms, exactly as the source does. -/
def delete_directory (fs : Entry) (directory : String) : (Except Err String) × Entry :=
  let dirpath := joinPath WORKSPACE directory
  match walkPath fs [] (pathComponents dirpath) with
  | none => (.error .NotFound, fs)
  | some pos =>
    match getNode fs pos with
    | none => (.error .NotFound, fs)
    | some (.file _) => (.error .InvalidArgument, fs)
    | some (.dir _) =>
      if normComponents dirpath = wsComponents then (.error .PermissionDenied, fs)
      else
        match removeAt fs pos with
        | some fs2 => (.ok ("✅ Deleted directory " ++ directory), fs2)
        | none => (.error .IOError, fs)

/-- One search result: a workspace-relative file path and its case-insensitive
occurrence count. -/
structure SearchMatch where
  file : String
  count : Nat
deriving DecidableEq

/-- `search_files(query, extension="")`: walk every file under the workspace,
keep those passing the extension filter whose text content contains `query`
case-insensitively, with the occurrence count; binary (undecodable) files are
skipped. -/
def search_files (fs : Entry) (query : String) (extension : String) : List SearchMatch :=
  (walkWorkspace fs).foldl (fun ms pd =>
    if extension ≠ "" ∧ endsWithStr (lastName pd.1) extension = false then ms
    else
      match pd.2 with
      | .binary => ms
      | .text content =>
        if pyContains (lowerStr content).toList (lowerStr query).toList then
          ms ++ [⟨relString pd.1, pycount (lowerStr content).toList (lowerStr query).toList⟩]
        else ms) []

/-- `find_files(pattern="*")`: walk every file under the workspace and keep
those whose name matches — everything for `"*"`, otherwise names ending with
the pattern stripped of its leading `'*'`s. -/
def find_files (fs : Entry) (pattern : String) : List String :=
  (walkWorkspace fs).foldl (fun ms pd =>
    if pattern = "*" ∨ endsWithStr (lastName pd.1) (stripStars pattern) = true
    then ms ++ [relString pd.1] else ms) []

/-! ### Concrete filesystems and spec-side definitions used by the claim theorems -/

def fsC2 : Entry := .dir [("app", .dir [("workspace", .dir [("d", .dir [])])])]

def fsC10 : Entry := .dir [("app", .dir [("workspace", .dir [("docs", .dir [])])])]

/-- The four classified error kinds of the specification. -/
def ClassifiedErr (e : Err) : Prop :=
  e = .NotFound ∨ e = .InvalidArgument ∨ e = .AlreadyExists ∨ e = .PermissionDenied

def fsC9 : Entry := .dir [("app", .dir [("workspace", .dir [])])]

def fsC7 : Entry := .dir [("app", .dir [("workspace", .dir [("d", .dir [])])])]

def fsC7e : Entry :=
  .dir [("app", .dir [("workspace", .dir [("d", .dir []), ("e", .dir [])])])]

def fsC7d : Entry := .dir [("app", .dir [("workspace", .dir [])])]

def fsC4 : Entry :=
  .dir [("app", .dir [("workspace", .dir [("note.txt", .file (.text "A"))])])]

def fsC1 : Entry :=
  .dir [("app", .dir [("workspace", .dir [])]), ("secret.txt", .file (.text "s3cret"))]

def fsC6 : Entry := .dir [("app", .dir [("workspace", .dir [("docs", .dir
  [("b.txt", .file (.text "B")), ("a.txt", .file (.text "A")), ("sub", .dir [])])])])]

def esC6 : List (String × Entry) :=
  [("b.txt", .file (.text "B")), ("a.txt", .file (.text "A")), ("sub", .dir [])]

def fsC5 : Entry := .dir [("app", .dir [("workspace", .dir
  [("b.txt", .file (.text "B")), ("bin.dat", .file .binary),
   ("docs", .dir [("a.txt", .file (.text "A"))])])])]

/-- The per-file selection rule of the specification for `search_files`:
a text file is reported, together with its case-insensitive occurrence
count, exactly when its content contains the query case-insensitively;
binary (undecodable) files yield nothing. -/
def searchSelect (query : String) (pd : List String × FileData) : Option SearchMatch :=
  match pd.2 with
  | .binary => none
  | .text content =>
    if pyContains (lowerStr content).toList (lowerStr query).toList then
      some ⟨relString pd.1, pycount (lowerStr content).toList (lowerStr query).toList⟩
    else none

def fsC8 : Entry := .dir [("app", .dir [("workspace", .dir
  [("note.txt", .file (.text "Hello World hello")), ("bin.dat", .file .binary)])])]

def fsC3 : Entry := .dir [("app", .dir [("workspace", .dir [])])]

def fsC3W1 : Entry := .dir [("app", .dir [("workspace", .dir [("docs", .dir [])])])]


/-! ### Entry-list lemmas -/

theorem lookupE_setEntry_self (name : String) (v : Entry) :
    ∀ es, lookupE name (setEntry name v es) = some v
  | [] => by simp [setEntry, lookupE]
  | (n, e) :: rest => by
    by_cases h : n = name
    · simp [setEntry, h, lookupE]
    · simp [setEntry, h, lookupE, lookupE_setEntry_self name v rest]

theorem setEntry_lookupE_eq (name : String) (v : Entry) :
    ∀ es, lookupE name es = some v → setEntry name v es = es
  | [] => by simp [lookupE]
  | (n, e) :: rest => by
    intro h
    by_cases hn : n = name
    · subst hn
      rw [lookupE, if_pos rfl] at h
      cases h
      simp [setEntry]
    · rw [lookupE, if_neg hn] at h
      simp [setEntry, hn, setEntry_lookupE_eq name v rest h]

theorem lookupE_removeEntry (name : String) :
    ∀ es, lookupE name (removeEntry name es) = none
  | [] => by simp [removeEntry, lookupE]
  | (n, e) :: rest => by
    by_cases h : n = name
    · simp [removeEntry, h, lookupE_removeEntry name rest]
    · simp [removeEntry, h, lookupE, lookupE_removeEntry name rest]

/-! ### Tree-mutation lemmas -/

/-- A directory check succeeds exactly on directory nodes. -/
theorem isDirOpt_iff {o : Option Entry} :
    isDirOpt o = true ↔ ∃ es, o = some (.dir es) := by
  cases o with
  | none => simp [isDirOpt]
  | some e => cases e <;> simp [isDirOpt]

theorem isDirOpt_isSome {o : Option Entry} (h : isDirOpt o = true) :
    o.isSome = true := by
  obtain ⟨es, rfl⟩ := isDirOpt_iff.mp h
  rfl

/-- After a successful `removeAt`, nothing is left at the removed path. -/
theorem getNode_removeAt : ∀ (e : Entry) (p : List String) (e' : Entry),
    removeAt e p = some e' → getNode e' p = none
  | _, [], _ => by simp [removeAt]
  | .file _, _ :: _, _ => by simp [removeAt]
  | .dir es, [c], e' => by
    intro h
    simp only [removeAt] at h
    split at h
    · cases h
      simp [getNode, lookupE_removeEntry]
    · cases h
  | .dir es, c :: c2 :: cs, e' => by
    intro h
    simp only [removeAt] at h
    cases hl : lookupE c es with
    | none => simp [hl] at h
    | some child =>
      simp only [hl] at h
      cases hr : removeAt child (c2 :: cs) with
      | none => simp [hr] at h
      | some ch =>
        simp only [hr, Option.map_some', Option.some.injEq] at h
        subst h
        simp [getNode, lookupE_setEntry_self, getNode_removeAt child (c2 :: cs) ch hr]

theorem lookupE_setEntry_ne (c d : String) (v : Entry) (hne : d ≠ c) :
    ∀ es, lookupE d (setEntry c v es) = lookupE d es
  | [] => by simp [setEntry, lookupE, Ne.symm hne]
  | (n, e) :: rest => by
    by_cases hn : n = c
    · simp [setEntry, hn, lookupE, Ne.symm hne]
    · simp [setEntry, hn, lookupE, lookupE_setEntry_ne c d v hne rest]

theorem lookupE_removeEntry_ne (c d : String) (hne : d ≠ c) :
    ∀ es, lookupE d (removeEntry c es) = lookupE d es
  | [] => rfl
  | (n, e) :: rest => by
    by_cases hn : n = c
    · simp [removeEntry, hn, lookupE, Ne.symm hne, lookupE_removeEntry_ne c d hne rest]
    · simp [removeEntry, hn, lookupE, lookupE_removeEntry_ne c d hne rest]

/-- Dropping the last element leaves an initial segment. -/
theorem dropLast_pref {α : Type} (l : List α) : l.dropLast <+: l := by
  rcases List.eq_nil_or_concat l with rfl | ⟨l2, x, rfl⟩
  · exact ⟨[], rfl⟩
  · rw [List.concat_eq_append, List.dropLast_concat]
    exact ⟨[x], rfl⟩

/-- An initial segment of `cur ++ [c]` is an initial segment of `cur` or the
whole list. -/
theorem prefix_snoc {α : Type} (pos cur : List α) (c : α) (h : pos <+: cur ++ [c]) :
    pos <+: cur ∨ pos = cur ++ [c] := by
  obtain ⟨t, ht⟩ := h
  rcases List.eq_nil_or_concat t with rfl | ⟨t2, x, rfl⟩
  · right
    simpa using ht
  · left
    rw [List.concat_eq_append, ← List.append_assoc] at ht
    exact ⟨t2, (List.append_inj' ht rfl).1⟩

theorem kindOf_eq_dir {o : Option Entry} {es : List (String × Entry)}
    (h : kindOf o = kindOf (some (.dir es))) : ∃ es2, o = some (.dir es2) := by
  cases o with
  | none => simp [kindOf] at h
  | some e =>
    cases e with
    | file d => simp [kindOf] at h
    | dir es2 => exact ⟨es2, rfl⟩

/-- Removing the entry at `pos` does not change the kind (absent / file /
directory) of any node whose position does not extend `pos`. -/
theorem removeAt_kind_frame : ∀ (fs : Entry) (pos : List String) (fs1 : Entry),
    removeAt fs pos = some fs1 → ∀ q, ¬ pos <+: q →
    kindOf (getNode fs1 q) = kindOf (getNode fs q)
  | fs, [], fs1 => by simp [removeAt]
  | .file _, _ :: _, fs1 => by simp [removeAt]
  | .dir es, [c], fs1 => by
    intro h q hq
    simp only [removeAt] at h
    split at h
    · cases h
      cases q with
      | nil => simp [getNode, kindOf]
      | cons d qs =>
        have hd : d ≠ c := by
          intro hd
          exact hq ⟨qs, by simp [hd]⟩
        simp [getNode, lookupE_removeEntry_ne c d hd es]
    · cases h
  | .dir es, c :: c2 :: cs, fs1 => by
    intro h q hq
    simp only [removeAt] at h
    cases hl : lookupE c es with
    | none => simp [hl] at h
    | some child =>
      simp only [hl] at h
      cases hr : removeAt child (c2 :: cs) with
      | none => simp [hr] at h
      | some ch =>
        simp only [hr, Option.map_some', Option.some.injEq] at h
        subst h
        cases q with
        | nil => simp [getNode, kindOf]
        | cons d qs =>
          by_cases hd : d = c
          · subst hd
            have hq2 : ¬ (c2 :: cs) <+: qs := by
              intro hp
              obtain ⟨t, ht⟩ := hp
              exact hq ⟨t, by simp [ht]⟩
            simp only [getNode, lookupE_setEntry_self, hl]
            exact removeAt_kind_frame child (c2 :: cs) ch hr qs hq2
          · simp [getNode, lookupE_setEntry_ne c d ch hd es]

/-- After removing the node at `pos`, the literal walk that used to end at
`pos` fails: it has to pass through `pos` and finds nothing there. -/
theorem walkPath_after_remove :
    ∀ (comps : List String) (fs : Entry) (pos : List String) (fs1 : Entry) (cur : List String),
      removeAt fs pos = some fs1 →
      walkPath fs cur comps = some pos →
      ¬ pos <+: cur →
      walkPath fs1 cur comps = none
  | [], fs, pos, fs1, cur => by
    intro _ hw hnp
    simp only [walkPath, Option.some.injEq] at hw
    subst hw
    exact absurd ⟨[], by simp⟩ hnp
  | c :: cs, fs, pos, fs1, cur => by
    intro hrm hw hnp
    simp only [walkPath] at hw ⊢
    by_cases h1 : c = "" ∨ c = "."
    · rw [if_pos h1] at hw ⊢
      exact walkPath_after_remove cs fs pos fs1 cur hrm hw hnp
    · rw [if_neg h1] at hw ⊢
      by_cases h2 : c = ".."
      · rw [if_pos h2] at hw ⊢
        refine walkPath_after_remove cs fs pos fs1 cur.dropLast hrm hw ?_
        intro hp
        exact hnp (hp.trans (dropLast_pref cur))
      · rw [if_neg h2] at hw ⊢
        by_cases hpc : pos = cur ++ [c]
        · have hnone := getNode_removeAt fs pos fs1 hrm
          rw [hpc] at hnone
          simp [hnone]
        · have hnp2 : ¬ pos <+: cur ++ [c] := by
            intro hp
            rcases prefix_snoc pos cur c hp with hp2 | hp2
            · exact hnp hp2
            · exact hpc hp2
          have hkind := removeAt_kind_frame fs pos fs1 hrm (cur ++ [c]) hnp2
          cases hg : getNode fs (cur ++ [c]) with
          | none => simp [hg] at hw
          | some ent =>
            cases ent with
            | dir es2 =>
              simp only [hg] at hw
              rw [hg] at hkind
              obtain ⟨es3, hg1⟩ := kindOf_eq_dir hkind
              rw [hg1]
              exact walkPath_after_remove cs fs pos fs1 (cur ++ [c]) hrm hw hnp2
            | file dta =>
              simp only [hg] at hw
              cases cs with
              | nil =>
                simp only [Option.some.injEq] at hw
                exact absurd hw.symm hpc
              | cons d ds => simp at hw

/-- A successful `makedirs` leaves a directory at the requested path. -/
theorem makedirs_getNode : ∀ (e : Entry) (p : List String),
    (makedirs e p).1 = true → isDirOpt (getNode (makedirs e p).2 p) = true
  | .file _, p => by simp [makedirs]
  | .dir es, [] => by simp [makedirs, getNode, isDirOpt]
  | .dir es, c :: cs => by
    simp only [makedirs]
    cases hl : lookupE c es with
    | some child =>
      intro h
      simpa [getNode, lookupE_setEntry_self] using makedirs_getNode child cs h
    | none =>
      intro h
      simpa [getNode, lookupE_setEntry_self] using makedirs_getNode (.dir []) cs h

/-- `makedirs` on an already existing directory path changes nothing. -/
theorem makedirs_of_isDir : ∀ (e : Entry) (p : List String),
    isDirOpt (getNode e p) = true → makedirs e p = (true, e)
  | .file _, [] => by simp [getNode, isDirOpt]
  | .file _, _ :: _ => by simp [getNode, isDirOpt]
  | .dir es, [] => by simp [makedirs]
  | .dir es, c :: cs => by
    intro h
    simp only [getNode] at h
    cases hl : lookupE c es with
    | none => rw [hl] at h; simp [isDirOpt] at h
    | some child =>
      rw [hl] at h
      simp only at h
      simp [makedirs, hl, makedirs_of_isDir child cs h,
        setEntry_lookupE_eq c child es hl]

/-- `open(path, "w")` succeeds below an existing parent directory whenever the
target is not itself a directory, and afterwards the target holds exactly the
written text (the parent staying a directory). -/
theorem openWrite_ok : ∀ (e : Entry) (p : List String) (c : String),
    p ≠ [] → isDirOpt (getNode e p.dropLast) = true → isDirOpt (getNode e p) = false →
    ∃ e', openWrite e p c = some e' ∧ getNode e' p = some (.file (.text c)) ∧
      isDirOpt (getNode e' p.dropLast) = true
  | e, [], c => by simp
  | e, [c1], c => by
    intro _ hpar htar
    simp only [List.dropLast_single, getNode] at hpar
    obtain ⟨es, he⟩ := isDirOpt_iff.mp hpar
    injection he with he
    subst he
    refine ⟨.dir (setEntry c1 (.file (.text c)) es), ?_, ?_, ?_⟩
    · simp only [openWrite]
      cases hl : lookupE c1 es with
      | none => simp
      | some child =>
        cases child with
        | file d => simp
        | dir es2 => simp [getNode, hl, isDirOpt] at htar
    · simp [getNode, lookupE_setEntry_self]
    · simp [getNode, isDirOpt]
  | e, c1 :: c2 :: cs, c => by
    intro _ hpar htar
    have hdl : (c1 :: c2 :: cs).dropLast = c1 :: (c2 :: cs).dropLast := rfl
    rw [hdl] at hpar
    cases e with
    | file d => simp [getNode, isDirOpt] at hpar
    | dir es =>
      simp only [getNode] at hpar htar
      cases hl : lookupE c1 es with
      | none => rw [hl] at hpar; simp [isDirOpt] at hpar
      | some child =>
        rw [hl] at hpar htar
        simp only at hpar htar
        obtain ⟨e2, hw, hg, hp⟩ :=
          openWrite_ok child (c2 :: cs) c (by simp) hpar htar
        refine ⟨.dir (setEntry c1 e2 es), ?_, ?_, ?_⟩
        · simp [openWrite, hl, hw]
        · simp [getNode, lookupE_setEntry_self, hg]
        · rw [hdl]
          simp [getNode, lookupE_setEntry_self, hp]

/-- Rewriting a file with the text it already holds is a no-op. -/
theorem openWrite_idem : ∀ (e : Entry) (p : List String) (c : String),
    getNode e p = some (.file (.text c)) → p ≠ [] → openWrite e p c = some e
  | e, [], c => by
    intro _ hne
    exact absurd rfl hne
  | .file _, q :: qs, c => by simp [getNode]
  | .dir es, [c1], c => by
    intro h _
    simp only [getNode] at h
    cases hl : lookupE c1 es with
    | none => simp [hl] at h
    | some child =>
      simp only [hl, getNode] at h
      cases h
      simp [openWrite, hl, setEntry_lookupE_eq c1 _ es hl]
  | .dir es, c1 :: c2 :: cs, c => by
    intro h _
    simp only [getNode] at h
    cases hl : lookupE c1 es with
    | none => simp [hl] at h
    | some child =>
      simp only [hl] at h
      simp [openWrite, hl, openWrite_idem child (c2 :: cs) c h (by simp),
        setEntry_lookupE_eq c1 child es hl]

/-- Appending to an existing text file succeeds and extends its content. -/
theorem appendAt_text : ∀ (e : Entry) (p : List String) (s c : String),
    getNode e p = some (.file (.text s)) → p ≠ [] →
    ∃ e', appendAt e p c = some e' ∧ getNode e' p = some (.file (.text (s ++ c)))
  | e, [], s, c => by
    intro h hne
    exact absurd rfl hne
  | .file _, q :: qs, s, c => by simp [getNode]
  | .dir es, [c1], s, c => by
    intro h _
    rw [getNode] at h
    cases hl : lookupE c1 es with
    | none => rw [hl] at h; cases h
    | some child =>
      rw [hl] at h
      simp only [getNode] at h
      cases h
      refine ⟨.dir (setEntry c1 (.file (.text (s ++ c))) es), ?_, ?_⟩
      · simp [appendAt, hl]
      · simp [getNode, lookupE_setEntry_self]
  | .dir es, c1 :: c2 :: cs, s, c => by
    intro h _
    rw [getNode] at h
    cases hl : lookupE c1 es with
    | none => rw [hl] at h; cases h
    | some child =>
      rw [hl] at h
      obtain ⟨e'', ha, hg⟩ := appendAt_text child (c2 :: cs) s c h (by simp)
      refine ⟨.dir (setEntry c1 e'' es), ?_, ?_⟩
      · simp [appendAt, hl, ha]
      · simp [getNode, lookupE_setEntry_self, hg]

/-! ### Accumulation-loop lemmas -/

/-- A loop that conditionally appends one transformed element per iteration
computes a `filterMap`. -/
theorem foldl_guard_eq_filterMap {α β : Type} (P : α → Prop) [DecidablePred P] (f : α → β) :
    ∀ (l : List α) (init : List β),
      l.foldl (fun acc x => if P x then acc ++ [f x] else acc) init
        = init ++ l.filterMap (fun x => if P x then some (f x) else none)
  | [], init => by simp
  | x :: l, init => by
    by_cases h : P x <;>
      simp [h, List.foldl_cons, foldl_guard_eq_filterMap P f l]

/-- A loop that appends whatever an option-valued selector yields computes a
`filterMap`. -/
theorem foldl_opt_eq_filterMap {α β : Type} (g : α → Option β) :
    ∀ (l : List α) (init : List β),
      l.foldl (fun acc x => acc ++ (g x).toList) init = init ++ l.filterMap g
  | [], init => by simp
  | x :: l, init => by
    cases h : g x <;>
      simp [h, List.foldl_cons, foldl_opt_eq_filterMap g l]

/-- The guarded accumulation keeps a sublist of the fully mapped list. -/
theorem filterMap_guard_sublist_map {α β : Type} (P : α → Prop) [DecidablePred P] (f : α → β) :
    ∀ l : List α,
      List.Sublist (l.filterMap (fun x => if P x then some (f x) else none)) (l.map f)
  | [] => by simp
  | x :: l => by
    by_cases h : P x
    · simpa [h] using List.Sublist.cons₂ (f x) (filterMap_guard_sublist_map P f l)
    · simpa [h] using List.Sublist.cons (f x) (filterMap_guard_sublist_map P f l)

/-! ### Path-resolution lemmas -/

theorem splitSlash_ne_nil : ∀ (l : List Char), splitSlash l ≠ []
  | [] => by simp [splitSlash]
  | c :: rest => by
    simp only [splitSlash]
    split
    · simp
    · split <;> simp

/-- Splitting distributes over concatenation at a separator. -/
theorem splitSlash_append : ∀ (x y : List Char),
    splitSlash (x ++ '/' :: y) = splitSlash x ++ splitSlash y
  | [], y => by simp [splitSlash]
  | c :: x, y => by
    by_cases hc : c = '/'
    · simp [splitSlash, hc, splitSlash_append x y]
    · have ih := splitSlash_append x y
      have hne := splitSlash_ne_nil x
      cases hx : splitSlash x with
      | nil => exact absurd hx hne
      | cons p ps =>
        have hca : (c :: x) ++ '/' :: y = c :: (x ++ '/' :: y) := rfl
        rw [hca]
        simp only [splitSlash, if_neg hc]
        rw [ih, hx]
        simp [List.cons_append]

/-- A normalisation step never shortens the accumulator unless the component
is `".."`. -/
theorem normStep_extends {acc : List String} {c : String} (h : c ≠ "..") :
    acc <+: normStep acc c := by
  by_cases h1 : c = "" ∨ c = "."
  · simp only [normStep, if_pos h1]
    exact List.prefix_refl _
  · simp only [normStep, if_neg h1, if_neg h]
    exact ⟨[c], rfl⟩

/-- Folding normalisation over `".."`-free components only extends the
accumulator. -/
theorem foldl_normStep_extends : ∀ (cs : List String) (acc : List String),
    (∀ c ∈ cs, c ≠ "..") → acc <+: cs.foldl normStep acc
  | [], acc, _ => by simp
  | c :: cs, acc, h => by
    rw [List.foldl_cons]
    exact (normStep_extends (h c (by simp))).trans
      (foldl_normStep_extends cs _ (fun x hx => h x (by simp [hx])))

/-! ### Claim theorems -/

/-- C2 counterexample: `"nope/.."` resolves (lexically, as `os.path.abspath`
sees it) to the workspace root, but the `os.path.exists` check walks the
literal path first, hits the missing `nope` component, and the call fails
with `NotFound` — the `PermissionDenied` guard is never reached. -/
theorem c2_alias_notfound_counterexample :
    resolveC "nope/.." = wsComponents
    ∧ delete_directory fsC2 "nope/.." = (.error .NotFound, fsC2) :=
  ⟨rfl, rfl⟩

/-- C2 (amended): for every directory argument whose literal path walk
reaches an existing directory and whose normalised absolute path equals the
workspace root — the empty string, `"."`, trailing-slash forms, absolute
aliases, and `"sub/.."` with `sub` an existing directory — `delete_directory`
fails with `PermissionDenied` and the filesystem is left untouched; an alias
whose literal walk fails (a `".."` chain through a missing or regular-file
component) fails earlier with `NotFound` instead. -/
theorem c2_root_guard_on_existing_alias (fs : Entry) (d : String) (pos : List String)
    (hwalk : walkPath fs [] (pathComponents (joinPath WORKSPACE d)) = some pos)
    (hdir : isDirOpt (getNode fs pos) = true)
    (hres : resolveC d = wsComponents) :
    delete_directory fs d = (.error .PermissionDenied, fs) := by
  obtain ⟨es, hes⟩ := isDirOpt_iff.mp hdir
  have hres2 : normComponents (joinPath WORKSPACE d) = wsComponents := hres
  simp [delete_directory, hwalk, hes, hres2]

/-- C2 witness: a genuine alias of the root through an existing
subdirectory is denied. -/
theorem c2_guard_witness :
    delete_directory fsC2 "d/.." = (.error .PermissionDenied, fsC2) :=
  c2_root_guard_on_existing_alias fsC2 "d/.." wsComponents rfl rfl rfl

/-- C10: a path that exists as a directory makes `append_file` fail with
`NotFound` (its precondition only tests for a regular file), while
`delete_file` on the same target fails with `InvalidArgument`. -/
theorem c10_append_vs_delete_on_directory (fs : Entry) (f c : String)
    (es : List (String × Entry))
    (h : getNode fs (resolveC f) = some (.dir es)) :
    append_file fs f c = (.error .NotFound, fs)
    ∧ delete_file fs f = (.error .InvalidArgument, fs) := by
  constructor
  · simp [append_file, h, isFileOpt]
  · simp [delete_file, h]

/-- C10 witness: the divergent errors on the concrete directory `docs`. -/
theorem c10_witness :
    append_file fsC10 "docs" "x" = (.error .NotFound, fsC10)
    ∧ delete_file fsC10 "docs" = (.error .InvalidArgument, fsC10) :=
  c10_append_vs_delete_on_directory fsC10 "docs" "x" [] rfl

/-- C9: whenever a mutating operation fails with one of the classified errors
(`NotFound`, `InvalidArgument`, `AlreadyExists`, `PermissionDenied`), the
filesystem state is exactly the state before the call — every existence/type
check runs before any mutating primitive. -/
theorem c9_classified_errors_preserve_state :
    (∀ fs f c e, (append_file fs f c).1 = .error e → ClassifiedErr e →
      (append_file fs f c).2 = fs)
    ∧ (∀ fs f e, (delete_file fs f).1 = .error e → ClassifiedErr e →
      (delete_file fs f).2 = fs)
    ∧ (∀ fs d e, (create_directory fs d).1 = .error e → ClassifiedErr e →
      (create_directory fs d).2 = fs)
    ∧ (∀ fs d e, (delete_directory fs d).1 = .error e → ClassifiedErr e →
      (delete_directory fs d).2 = fs) := by
  refine ⟨?_, ?_, ?_, ?_⟩
  · intro fs f c e h _
    by_cases hf : isFileOpt (getNode fs (resolveC f)) = true
    · cases ha : appendAt fs (resolveC f) c with
      | some fs2 => simp [append_file, hf, ha] at h
      | none => simp [append_file, hf, ha]
    · simp [append_file, hf]
  · intro fs f e h _
    cases hg : getNode fs (resolveC f) with
    | none => simp [delete_file, hg]
    | some ent =>
      cases ent with
      | dir es => simp [delete_file, hg]
      | file dta =>
        cases hr : removeAt fs (resolveC f) with
        | some fs2 => simp [delete_file, hg, hr] at h
        | none => simp [delete_file, hg, hr]
  · intro fs d e h hcl
    by_cases hs : (getNode fs (resolveC d)).isSome = true
    · simp [create_directory, hs]
    · cases hr : (makedirs fs (resolveC d)).1 with
      | true => simp [create_directory, hs, hr] at h
      | false =>
        simp only [create_directory, hs, hr] at h
        simp only [Bool.false_eq_true, if_false, Except.error.injEq] at h
        subst h
        rcases hcl with h1 | h1 | h1 | h1 <;> cases h1
  · intro fs d e h _
    cases hwalk : walkPath fs [] (pathComponents (joinPath WORKSPACE d)) with
    | none => simp [delete_directory, hwalk]
    | some pos =>
      cases hg : getNode fs pos with
      | none => simp [delete_directory, hwalk, hg]
      | some ent =>
        cases ent with
        | file dta => simp [delete_directory, hwalk, hg]
        | dir es =>
          by_cases hw : normComponents (joinPath WORKSPACE d) = wsComponents
          · simp [delete_directory, hwalk, hg, hw]
          · cases hr : removeAt fs pos with
            | some fs2 => simp [delete_directory, hwalk, hg, hw, hr] at h
            | none => simp [delete_directory, hwalk, hg, hw, hr]

/-- C9 witness: a classified `append_file` failure leaves the state intact. -/
theorem c9_witness : (append_file fsC9 "nope.txt" "x").2 = fsC9 :=
  c9_classified_errors_preserve_state.1 fsC9 "nope.txt" "x" .NotFound rfl (Or.inl rfl)

/-- C7: creating a path that already exists (as file or directory) fails with
`AlreadyExists`; a successful `create_directory` followed by the same call
fails with `AlreadyExists`; a successful `delete_directory` followed by the
same call fails with `NotFound`. -/
theorem c7_create_delete_repeat :
    (∀ fs d, (getNode fs (resolveC d)).isSome = true →
      create_directory fs d = (.error .AlreadyExists, fs))
    ∧ (∀ fs d m fs1, create_directory fs d = (.ok m, fs1) →
      create_directory fs1 d = (.error .AlreadyExists, fs1))
    ∧ (∀ fs d m fs1, delete_directory fs d = (.ok m, fs1) →
      delete_directory fs1 d = (.error .NotFound, fs1)) := by
  refine ⟨?_, ?_, ?_⟩
  · intro fs d h
    simp [create_directory, h]
  · intro fs d m fs1 h
    by_cases hs : (getNode fs (resolveC d)).isSome = true
    · simp [create_directory, hs] at h
    · cases hr : (makedirs fs (resolveC d)).1 with
      | false => simp [create_directory, hs, hr] at h
      | true =>
        simp only [create_directory, hs, hr, if_true, if_false, Bool.false_eq_true,
          Prod.mk.injEq, Except.ok.injEq] at h
        obtain ⟨hm, hfs⟩ := h
        subst hfs
        have hd := makedirs_getNode fs (resolveC d) hr
        simp [create_directory, isDirOpt_isSome hd]
  · intro fs d m fs1 h
    cases hwalk : walkPath fs [] (pathComponents (joinPath WORKSPACE d)) with
    | none => simp [delete_directory, hwalk] at h
    | some pos =>
      cases hg : getNode fs pos with
      | none => simp [delete_directory, hwalk, hg] at h
      | some ent =>
        cases ent with
        | file dta => simp [delete_directory, hwalk, hg] at h
        | dir es =>
          by_cases hw : normComponents (joinPath WORKSPACE d) = wsComponents
          · simp [delete_directory, hwalk, hg, hw] at h
          · cases hr : removeAt fs pos with
            | none => simp [delete_directory, hwalk, hg, hw, hr] at h
            | some fs2 =>
              simp [delete_directory, hwalk, hg, hw, hr] at h
              obtain ⟨hm, hfs⟩ := h
              subst hfs
              have hpos_ne : pos ≠ [] := by
                intro hp
                rw [hp] at hr
                simp [removeAt] at hr
              have hnone : walkPath fs2 [] (pathComponents (joinPath WORKSPACE d)) = none := by
                refine walkPath_after_remove _ fs pos fs2 [] hr hwalk ?_
                intro hp
                obtain ⟨t, ht⟩ := hp
                exact hpos_ne (List.append_eq_nil.mp ht).1
              simp [delete_directory, hnone]

/-- C7 witness: the three behaviours on concrete directories. -/
theorem c7_witness :
    create_directory fsC7 "d" = (.error .AlreadyExists, fsC7)
    ∧ create_directory fsC7e "e" = (.error .AlreadyExists, fsC7e)
    ∧ delete_directory fsC7d "d" = (.error .NotFound, fsC7d) :=
  ⟨c7_create_delete_repeat.1 fsC7 "d" rfl,
   c7_create_delete_repeat.2.1 fsC7 "e" ("✅ Created directory " ++ "e") fsC7e rfl,
   c7_create_delete_repeat.2.2 fsC7 "d" ("✅ Deleted directory " ++ "d") fsC7d rfl⟩

/-- C4: appending `c1` then `c2` to a file holding `c0` leaves it holding the
concatenation `c0 ++ c1 ++ c2`, which `read_file` then returns; appending to a
path where no regular file exists fails with `NotFound`. -/
theorem c4_append_concatenates :
    (∀ fs f c1 c2 c0, resolveC f ≠ [] →
      getNode fs (resolveC f) = some (.file (.text c0)) →
      ∃ fs1 fs2,
        append_file fs f c1 = (.ok ("✅ Appended to " ++ f), fs1)
        ∧ append_file fs1 f c2 = (.ok ("✅ Appended to " ++ f), fs2)
        ∧ read_file fs2 f = .ok (c0 ++ c1 ++ c2))
    ∧ (∀ fs f c, isFileOpt (getNode fs (resolveC f)) = false →
      append_file fs f c = (.error .NotFound, fs)) := by
  constructor
  · intro fs f c1 c2 c0 hne h0
    obtain ⟨fs1, ha1, hg1⟩ := appendAt_text fs (resolveC f) c0 c1 h0 hne
    obtain ⟨fs2, ha2, hg2⟩ := appendAt_text fs1 (resolveC f) (c0 ++ c1) c2 hg1 hne
    refine ⟨fs1, fs2, ?_, ?_, ?_⟩
    · simp [append_file, isFileOpt, h0, ha1]
    · simp [append_file, isFileOpt, hg1, ha2]
    · simp [read_file, hg2]
  · intro fs f c h
    simp [append_file, h]

/-- C4 witness: appending `"B"` then `"C"` to a file holding `"A"` and the
`NotFound` failure on a missing target. -/
theorem c4_witness :
    (∃ fs1 fs2,
      append_file fsC4 "note.txt" "B" = (.ok ("✅ Appended to " ++ "note.txt"), fs1)
      ∧ append_file fs1 "note.txt" "C" = (.ok ("✅ Appended to " ++ "note.txt"), fs2)
      ∧ read_file fs2 "note.txt" = .ok ("A" ++ "B" ++ "C"))
    ∧ append_file fsC4 "missing.txt" "x" = (.error .NotFound, fsC4) :=
  ⟨c4_append_concatenates.1 fsC4 "note.txt" "B" "C" "A" (by decide) rfl,
   c4_append_concatenates.2 fsC4 "missing.txt" "x" rfl⟩

/-- C1 counterexample: the argument `"../../secret.txt"` resolves outside the
workspace root, yet `read_file` is not rejected — it reads and returns the
file outside the sandbox. -/
theorem c1_escape_counterexample :
    read_file fsC1 "../../secret.txt" = .ok "s3cret"
    ∧ ¬ wsComponents <+: resolveC "../../secret.txt" :=
  ⟨rfl, by decide⟩

/-- C1 (amended): resolution is a plain join with no verification — an
argument that is not absolute and contains no `".."` component always
resolves to a descendant of (or equal to) the workspace root; escaping
arguments are not rejected (see the counterexample). -/
theorem c1_join_stays_inside (arg : String)
    (habs : isAbsPath arg = false)
    (hdots : ∀ comp ∈ pathComponents arg, comp ≠ "..") :
    wsComponents <+: resolveC arg := by
  have h2 : ¬(WORKSPACE = "" ∨ WORKSPACE.data.getLast? = some '/') := by decide
  have hjoin : joinPath WORKSPACE arg = WORKSPACE ++ "/" ++ arg := by
    simp [joinPath, habs, h2]
  have hone : ("/" : String).data = ['/'] := rfl
  have hchars : (WORKSPACE ++ "/" ++ arg).toList = WORKSPACE.toList ++ '/' :: arg.toList := by
    simp [String.toList, String.data_append, hone]
  have hsplit : pathComponents (WORKSPACE ++ "/" ++ arg)
      = pathComponents WORKSPACE ++ pathComponents arg := by
    unfold pathComponents
    rw [hchars, splitSlash_append, List.map_append]
  show wsComponents <+: normalizeComponents (pathComponents (joinPath WORKSPACE arg))
  rw [hjoin, hsplit]
  unfold normalizeComponents
  rw [List.foldl_append]
  exact foldl_normStep_extends (pathComponents arg) _ hdots

/-- C1 witness: an ordinary relative argument stays inside the root. -/
theorem c1_witness : wsComponents <+: resolveC "notes/a.txt" :=
  c1_join_stays_inside "notes/a.txt" rfl (by decide)

/-- C6: listing an existing directory returns the directory names suffixed
with `"/"` followed by the file names, each group lexicographically sorted,
and leaves the filesystem untouched; an empty directory gives the empty
sequence (the permutation conjuncts force it). -/
theorem c6_list_files_ordering (fs : Entry) (d : String) (es : List (String × Entry))
    (h : getNode fs (resolveC d) = some (.dir es)) :
    ∃ ds fl, list_files fs d = (.ok (ds ++ fl), fs)
      ∧ ds.Sorted (· ≤ ·) ∧ fl.Sorted (· ≤ ·)
      ∧ ds.Perm ((es.filter (fun it => isDirNode it.2)).map (fun it => it.1 ++ "/"))
      ∧ fl.Perm ((es.filter (fun it => !isDirNode it.2)).map (fun it => it.1)) := by
  refine ⟨List.insertionSort (fun a b => a ≤ b)
      ((es.filter (fun it => isDirNode it.2)).map (fun it => it.1 ++ "/")),
    List.insertionSort (fun a b => a ≤ b)
      ((es.filter (fun it => !isDirNode it.2)).map (fun it => it.1)),
    ?_, ?_, ?_, ?_, ?_⟩
  · simp [list_files, h]
  · exact List.sorted_insertionSort _ _
  · exact List.sorted_insertionSort _ _
  · exact List.perm_insertionSort _ _
  · exact List.perm_insertionSort _ _

/-- C6 witness: the ordering facts on a concrete three-entry directory. -/
theorem c6_witness :
    ∃ ds fl, list_files fsC6 "docs" = (.ok (ds ++ fl), fsC6)
      ∧ ds.Sorted (· ≤ ·) ∧ fl.Sorted (· ≤ ·)
      ∧ ds.Perm ((esC6.filter (fun it => isDirNode it.2)).map (fun it => it.1 ++ "/"))
      ∧ fl.Perm ((esC6.filter (fun it => !isDirNode it.2)).map (fun it => it.1)) :=
  c6_list_files_ordering fsC6 "docs" esC6 rfl

/-- C5: `find_files` with `"*"` returns every walked file's relative path;
with any other pattern it returns exactly the files whose name ends with the
pattern stripped of leading `'*'`s (pure suffix matching), in traversal
order (a sublist of the full walk). -/
theorem c5_find_files_suffix_semantics (fs : Entry) (pattern : String) :
    find_files fs "*" = (walkWorkspace fs).map (fun pd => relString pd.1)
    ∧ (pattern ≠ "*" →
      ∀ r, r ∈ find_files fs pattern ↔
        ∃ pd, pd ∈ walkWorkspace fs
          ∧ endsWithStr (lastName pd.1) (stripStars pattern) = true
          ∧ r = relString pd.1)
    ∧ List.Sublist (find_files fs pattern)
        ((walkWorkspace fs).map (fun pd => relString pd.1)) := by
  have hff : ∀ pat : String, find_files fs pat
      = (walkWorkspace fs).filterMap (fun pd =>
          if pat = "*" ∨ endsWithStr (lastName pd.1) (stripStars pat) = true
          then some (relString pd.1) else none) := by
    intro pat
    have h0 : find_files fs pat
        = (walkWorkspace fs).foldl (fun ms pd =>
            if pat = "*" ∨ endsWithStr (lastName pd.1) (stripStars pat) = true
            then ms ++ [relString pd.1] else ms) [] := rfl
    rw [h0]
    simpa using foldl_guard_eq_filterMap
      (fun pd => pat = "*" ∨ endsWithStr (lastName pd.1) (stripStars pat) = true)
      (fun pd => relString pd.1) (walkWorkspace fs) []
  refine ⟨?_, ?_, ?_⟩
  · rw [hff "*"]
    have hfun : (fun (pd : List String × FileData) =>
        if ("*" : String) = "*" ∨ endsWithStr (lastName pd.1) (stripStars "*") = true
        then some (relString pd.1) else none)
        = (some ∘ fun (pd : List String × FileData) => relString pd.1) := by
      funext pd
      simp
    rw [hfun, List.filterMap_eq_map]
  · intro hne r
    rw [hff pattern, List.mem_filterMap]
    constructor
    · rintro ⟨pd, hmem, hsel⟩
      by_cases hc : pattern = "*" ∨ endsWithStr (lastName pd.1) (stripStars pattern) = true
      · rw [if_pos hc] at hsel
        injection hsel with hsel
        rcases hc with hc | hc
        · exact absurd hc hne
        · exact ⟨pd, hmem, hc, hsel.symm⟩
      · rw [if_neg hc] at hsel
        cases hsel
    · rintro ⟨pd, hmem, hend, rfl⟩
      exact ⟨pd, hmem, if_pos (Or.inr hend)⟩
  · rw [hff pattern]
    exact filterMap_guard_sublist_map
      (fun pd => pattern = "*" ∨ endsWithStr (lastName pd.1) (stripStars pattern) = true)
      (fun pd => relString pd.1) (walkWorkspace fs)

/-- C5 witness: the suffix characterisation instantiated at `"*.txt"`. -/
theorem c5_witness :
    "b.txt" ∈ find_files fsC5 "*.txt" ↔
      ∃ pd, pd ∈ walkWorkspace fsC5
        ∧ endsWithStr (lastName pd.1) (stripStars "*.txt") = true
        ∧ "b.txt" = relString pd.1 :=
  (c5_find_files_suffix_semantics fsC5 "*.txt").2.1 (by decide) "b.txt"

/-- C8: `search_files` (with the default empty extension) returns exactly one
entry per text file whose content contains the query case-insensitively, each
carrying the case-insensitive occurrence count; binary files are silently
skipped and the operation is total (it never fails). -/
theorem c8_search_files_ci_counts (fs : Entry) (query : String) :
    search_files fs query "" = (walkWorkspace fs).filterMap (searchSelect query)
    ∧ ∀ m, m ∈ search_files fs query "" ↔
      ∃ pd, pd ∈ walkWorkspace fs ∧ searchSelect query pd = some m := by
  have h0 : search_files fs query ""
      = (walkWorkspace fs).foldl (fun ms pd =>
          if ("" : String) ≠ "" ∧ endsWithStr (lastName pd.1) "" = false then ms
          else match pd.2 with
            | .binary => ms
            | .text content =>
              if pyContains (lowerStr content).toList (lowerStr query).toList then
                ms ++ [⟨relString pd.1, pycount (lowerStr content).toList (lowerStr query).toList⟩]
              else ms) [] := rfl
  have hfun : (fun (ms : List SearchMatch) (pd : List String × FileData) =>
      if ("" : String) ≠ "" ∧ endsWithStr (lastName pd.1) "" = false then ms
      else match pd.2 with
        | .binary => ms
        | .text content =>
          if pyContains (lowerStr content).toList (lowerStr query).toList then
            ms ++ [⟨relString pd.1, pycount (lowerStr content).toList (lowerStr query).toList⟩]
          else ms)
      = (fun ms pd => ms ++ (searchSelect query pd).toList) := by
    funext ms pd
    rw [if_neg (by simp)]
    cases hd : pd.2 with
    | binary => simp [searchSelect, hd]
    | text content =>
      simp only [searchSelect, hd]
      cases hc : pyContains (lowerStr content).toList (lowerStr query).toList <;>
        simp [hc]
  have hmain : search_files fs query ""
      = (walkWorkspace fs).filterMap (searchSelect query) := by
    rw [h0, hfun]
    exact foldl_opt_eq_filterMap (searchSelect query) (walkWorkspace fs) []
  exact ⟨hmain, fun m => by rw [hmain, List.mem_filterMap]⟩

/-- C8 witness: the characterisation applied to a concrete workspace. -/
theorem c8_witness :
    search_files fsC8 "hello" "" = (walkWorkspace fsC8).filterMap (searchSelect "hello") :=
  (c8_search_files_ci_counts fsC8 "hello").1

/-- C3 counterexample: the filename `""` resolves to the workspace root
directory itself, so `write_file` fails with an unclassified error (the OS
refuses to open a directory for writing) instead of round-tripping. -/
theorem c3_counterexample : write_file fsC3 "" "x" = (.error Err.IOError, fsC3) := rfl

/-- C3 (amended): for every filename whose resolved path is a non-root
location, whose parent chain can be created as directories, and which is not
itself an existing directory, `write_file` succeeds (never failing because a
target file already exists), creates the missing parents, `read_file` then
returns exactly the written content, and writing the same content again is
idempotent (it reproduces the very same state). -/
theorem c3_write_read_roundtrip (fs fs1 : Entry) (f c : String)
    (hne : resolveC f ≠ [])
    (hmk : makedirs fs (normComponents (dirname (joinPath WORKSPACE f))) = (true, fs1))
    (hdl : (resolveC f).dropLast = normComponents (dirname (joinPath WORKSPACE f)))
    (htar : isDirOpt (getNode fs1 (resolveC f)) = false) :
    ∃ fs2, write_file fs f c = (.ok ("✅ Wrote to " ++ f), fs2)
      ∧ read_file fs2 f = .ok c
      ∧ write_file fs2 f c = (.ok ("✅ Wrote to " ++ f), fs2) := by
  have hpar1 : isDirOpt (getNode fs1 (resolveC f).dropLast) = true := by
    rw [hdl]
    have h := makedirs_getNode fs (normComponents (dirname (joinPath WORKSPACE f)))
    rw [hmk] at h
    simpa using h rfl
  obtain ⟨fs2, hw, hg, hp⟩ := openWrite_ok fs1 (resolveC f) c hne hpar1 htar
  have hw' : openWrite fs1 (normComponents (joinPath WORKSPACE f)) c = some fs2 := hw
  have hwrite : write_file fs f c = (.ok ("✅ Wrote to " ++ f), fs2) := by
    simp [write_file, hmk, hw']
  have hp' := hp
  rw [hdl] at hp'
  have hmk2 := makedirs_of_isDir fs2 (normComponents (dirname (joinPath WORKSPACE f))) hp'
  have hw2 : openWrite fs2 (normComponents (joinPath WORKSPACE f)) c = some fs2 :=
    openWrite_idem fs2 (resolveC f) c hg hne
  exact ⟨fs2, hwrite, by simp [read_file, hg], by simp [write_file, hmk2, hw2]⟩

/-- C3 witness: a round-trip through `docs/new.txt` from an empty workspace. -/
theorem c3_witness :
    ∃ fs2, write_file fsC3 "docs/new.txt" "hi" = (.ok ("✅ Wrote to " ++ "docs/new.txt"), fs2)
      ∧ read_file fs2 "docs/new.txt" = .ok "hi"
      ∧ write_file fs2 "docs/new.txt" "hi" = (.ok ("✅ Wrote to " ++ "docs/new.txt"), fs2) :=
  c3_write_read_roundtrip fsC3 fsC3W1 "docs/new.txt" "hi" (by decide) rfl rfl rfl

end MCP
